import Mathlib

/-!
Verification of the jams namespace-validation engine and the SALAMI parser
utilities.

The namespace-validation core (Observation/Annotation data model, the
namespace registry and the validation algorithm) is embedded below from the
specification of the engine; the path computation of the `unzip` helper of
`parsers/salami_parser.py` is embedded directly from its source.

Real numbers of the engine (times, durations, numeric values and
confidences) are modelled as rationals so that every definition stays
executable.
-/

/-- Modelled from the spec: the namespace-typed payload of an Observation.
A value is a primitive (null, integer, real number, string), a numeric
array, or an object with named fields; integers and non-integer numbers are
kept distinct because integer-only rules reject a real number such as 1.0. -/
inductive Value where
  | null : Value
  | int (n : Int) : Value
  | num (q : ℚ) : Value
  | str (s : String) : Value
  | arr (xs : List Value) : Value
  | obj (kvs : List (String × Value)) : Value

/-- Modelled from the spec: an Observation is the atomic timed record with a
time, a duration, a namespace-typed value and a nullable confidence. -/
structure Obs where
  time : ℚ
  duration : ℚ
  value : Value
  confidence : Value

/-- Modelled from the spec: an Annotation (absent from src, only its tests
are) is an ordered sequence of Observations tagged with a namespace name.
The field nspace holds the namespace name. -/
structure Annot where
  nspace : String
  observations : List Obs

/-- Modelled from the spec: Annotation.append constructs an Observation and
appends it at the end of the observation sequence; it performs no
validation. -/
def Annot.append (a : Annot) (time duration : ℚ) (value confidence : Value) : Annot :=
  { a with observations := a.observations ++ [⟨time, duration, value, confidence⟩] }

/-- Modelled from the spec: the per-field predicates used by object-shaped
rules (integer lower bounds and integer set membership). -/
inductive FieldRule where
  | intGE (lo : Int) : FieldRule
  | intGT (lo : Int) : FieldRule
  | intIn (allowed : List Int) : FieldRule

/-- Modelled from the spec: the tagged union of value-rule kinds used by the
built-in namespaces. -/
inductive ValueRule where
  | anything : ValueRule
  | intOrNull : ValueRule
  | strRule : ValueRule
  | numGE (lo : ℚ) : ValueRule
  | anyNum : ValueRule
  | arrNum (len : Nat) : ValueRule
  | objRule (fields : List (String × FieldRule)) : ValueRule

/-- Modelled from the spec: the confidence-rule kinds used by the built-in
namespaces (anything, or a number in the unit interval or null). -/
inductive ConfRule where
  | anything : ConfRule
  | unitOrNull : ConfRule

/-- Modelled from the spec: a Namespace Schema pairs a value rule with a
confidence rule. -/
structure NamespaceSchema where
  value_rule : ValueRule
  confidence_rule : ConfRule

/-- Modelled from the spec: the error taxonomy of the engine, a
configuration error (unknown or duplicate namespace) or a schema error
carrying the ordered violation list. -/
structure Violation where
  idx : Nat
  field : String
  reason : String
deriving DecidableEq

/-- Modelled from the spec: the two failure kinds of the engine. -/
inductive ValidationError where
  | configError (msg : String) : ValidationError
  | schemaError (violations : List Violation) : ValidationError
deriving DecidableEq

/-- Is the value a number (an integer or a real number)? -/
def isNumber : Value → Bool
  | Value.int _ => true
  | Value.num _ => true
  | _ => false

/-- The numeric content of a value, when it is a number. -/
def asNum : Value → Option ℚ
  | Value.int n => some (n : ℚ)
  | Value.num q => some q
  | _ => none

/-- Modelled from the spec: evaluation of a per-field predicate. -/
def fieldOK : FieldRule → Value → Bool
  | FieldRule.intGE lo, Value.int n => decide (lo ≤ n)
  | FieldRule.intGT lo, Value.int n => decide (lo < n)
  | FieldRule.intIn allowed, Value.int n => allowed.contains n
  | _, _ => false

/-- Modelled from the spec: evaluation of a value rule on a candidate value,
returning the list of violation reasons.  Object-shaped matching requires
exactly the declared field set, each field checked independently, a
non-object candidate being a single whole-value violation; array-shaped
matching reports a wrong length and each non-numeric element as separate
violations. -/
def checkValue : ValueRule → Value → List String
  | ValueRule.anything, _ => []
  | ValueRule.intOrNull, Value.null => []
  | ValueRule.intOrNull, Value.int _ => []
  | ValueRule.intOrNull, _ => ["value is not an integer or null"]
  | ValueRule.strRule, Value.str _ => []
  | ValueRule.strRule, _ => ["value is not a string"]
  | ValueRule.numGE lo, v =>
      match asNum v with
      | some q => if lo ≤ q then [] else ["value is below the minimum"]
      | none => ["value is not a number"]
  | ValueRule.anyNum, v =>
      match asNum v with
      | some _ => []
      | none => ["value is not a number"]
  | ValueRule.arrNum n, Value.arr xs =>
      (if xs.length = n then [] else ["array has the wrong length"]) ++
      xs.flatMap (fun x => if isNumber x then [] else ["array element is not a number"])
  | ValueRule.arrNum _, _ => ["value is not an array"]
  | ValueRule.objRule fields, Value.obj kvs =>
      fields.flatMap (fun nf =>
        match kvs.find? (fun p => p.1 == nf.1) with
        | none => ["missing field " ++ nf.1]
        | some p => if fieldOK nf.2 p.2 then [] else ["invalid field " ++ nf.1]) ++
      kvs.flatMap (fun p =>
        if fields.any (fun nf => nf.1 == p.1) then [] else ["unexpected field " ++ p.1])
  | ValueRule.objRule _, _ => ["value is not an object"]

/-- Modelled from the spec: evaluation of a confidence rule. -/
def checkConf : ConfRule → Value → List String
  | ConfRule.anything, _ => []
  | ConfRule.unitOrNull, Value.null => []
  | ConfRule.unitOrNull, v =>
      match asNum v with
      | some q => if 0 ≤ q ∧ q ≤ 1 then [] else ["confidence is out of range"]
      | none => ["confidence is not a number"]

/-- Modelled from the spec: the generic and namespace-specific checks of one
Observation, as (field, reason) pairs: nonnegative time and duration, then
the value rule, then the confidence rule. -/
def checkObs (s : NamespaceSchema) (o : Obs) : List (String × String) :=
  (if o.time < 0 then [("time", "time is negative")] else []) ++
  (if o.duration < 0 then [("duration", "duration is negative")] else []) ++
  (checkValue s.value_rule o.value).map (fun r => ("value", r)) ++
  (checkConf s.confidence_rule o.confidence).map (fun r => ("confidence", r))

/-- Modelled from the spec: the full pass over the observation sequence,
collecting every violation in order, indices counting from the given
starting index. -/
def obsViolations (s : NamespaceSchema) : Nat → List Obs → List Violation
  | _, [] => []
  | i, o :: rest =>
      (checkObs s o).map (fun fr => ⟨i, fr.1, fr.2⟩) ++ obsViolations s (i + 1) rest

/-- Modelled from the spec: the field set of the beat_position object rule. -/
def bpFields : List (String × FieldRule) :=
  [("position", FieldRule.intGE 1),
   ("measure", FieldRule.intGE 1),
   ("num_beats", FieldRule.intGT 0),
   ("beat_units", FieldRule.intIn [1, 2, 4, 8, 16, 32, 64])]

/-- Modelled from the spec: the built-in namespace registry, a mapping from
namespace name to schema populated once at startup. -/
def builtinRegistry : List (String × NamespaceSchema) :=
  [("onset", ⟨ValueRule.anything, ConfRule.anything⟩),
   ("beat", ⟨ValueRule.intOrNull, ConfRule.anything⟩),
   ("beat_position", ⟨ValueRule.objRule bpFields, ConfRule.anything⟩),
   ("mood_thayer", ⟨ValueRule.arrNum 2, ConfRule.anything⟩),
   ("lyrics", ⟨ValueRule.strRule, ConfRule.anything⟩),
   ("tempo", ⟨ValueRule.numGE 0, ConfRule.unitOrNull⟩),
   ("pitch_hz", ⟨ValueRule.anyNum, ConfRule.unitOrNull⟩)]

/-- Modelled from the spec: Registry.lookup returns the schema of a
namespace name, or fails with a configuration error when the name is
absent. -/
def lookupNS (reg : List (String × NamespaceSchema)) (name : String) :
    Except ValidationError NamespaceSchema :=
  match reg.find? (fun p => p.1 == name) with
  | some p => Except.ok p.2
  | none => Except.error (ValidationError.configError ("unknown namespace " ++ name))

/-- Modelled from the spec: Registry.register adds a schema, failing with a
configuration error on a duplicate name. -/
def registerNS (reg : List (String × NamespaceSchema)) (name : String)
    (s : NamespaceSchema) : Except ValidationError (List (String × NamespaceSchema)) :=
  match reg.find? (fun p => p.1 == name) with
  | some _ => Except.error (ValidationError.configError ("duplicate namespace " ++ name))
  | none => Except.ok (reg ++ [(name, s)])

/-- Modelled from the spec: Annotation.validate resolves the schema of the
annotation namespace (a configuration error when unknown), performs the full
pass collecting every violation, and fails with a schema error carrying the
ordered violation list when it is nonempty, succeeding otherwise. -/
def validate (reg : List (String × NamespaceSchema)) (a : Annot) :
    Except ValidationError Unit :=
  match lookupNS reg a.nspace with
  | Except.error e => Except.error e
  | Except.ok s =>
      match obsViolations s 0 a.observations with
      | [] => Except.ok ()
      | v :: vs => Except.error (ValidationError.schemaError (v :: vs))

/-- Modelled from the spec: validation is a pure decision function; running
it yields its outcome and leaves the annotation as it was. -/
def validateRun (reg : List (String × NamespaceSchema)) (a : Annot) :
    Except ValidationError Unit × Annot :=
  (validate reg a, a)

/-!
Embedding of the path computation of `unzip` in `parsers/salami_parser.py`
(POSIX path semantics, strings as character lists where convenient).
-/

/-- POSIX os.path.splitdrive: there is no drive, the drive part is empty. -/
def splitdrive (p : String) : String × String := ("", p)

/-- POSIX os.path.split: the tail is everything after the last slash, the
head is everything up to and including it, stripped of trailing slashes
unless it consists only of slashes. -/
def posixSplit (p : String) : String × String :=
  let cs := p.toList
  let tail := String.mk (cs.reverse.takeWhile (fun c => c != '/')).reverse
  let rawHead := String.mk (cs.reverse.dropWhile (fun c => c != '/')).reverse
  let head :=
    if rawHead = "" then rawHead
    else if rawHead.toList.all (fun c => c == '/') then rawHead
    else String.mk (rawHead.toList.reverse.dropWhile (fun c => c == '/')).reverse
  (head, tail)

/-- POSIX os.path.join of two components: an absolute second component
replaces the first; otherwise the two are joined, inserting a slash when the
first is nonempty and does not already end in one. -/
def posixJoin (a b : String) : String :=
  if b.toList.take 1 = ['/'] then b
  else if a = "" ∨ a.toList.getLast? = some '/' then a ++ b
  else a ++ "/" ++ b

/-- One step of the loop of `unzip` over the directory words of a member
filename: split off the drive and the head, skip the word when it is the
current-directory name, the parent-directory name or empty, and otherwise
join it onto the path. -/
def stepWord (path word : String) : String :=
  let word1 := (splitdrive word).2
  let word2 := (posixSplit word1).2
  if word2 = "." ∨ word2 = ".." ∨ word2 = "" then path else posixJoin path word2

/-- The directory `unzip` extracts a member into: the fold of stepWord over
all but the last slash-separated component of the member filename, starting
from the destination directory. -/
def memberExtractDir (dest_dir filename : String) : String :=
  ((filename.splitOn "/").dropLast).foldl stepWord dest_dir

/-- The retained directory components of a member filename: the processed
words that are not the current-directory name, the parent-directory name or
empty. -/
def cleanWords (ws : List String) : List String :=
  ws.filterMap (fun w =>
    let w2 := (posixSplit (splitdrive w).2).2
    if w2 = "." ∨ w2 = ".." ∨ w2 = "" then none else some w2)

/-!
Specification-side predicates used by the characterisation theorems.
-/

/-- A value that is a real number in the specification sense: an integer or
a (rational-modelled) real. -/
def IsRealNumber (v : Value) : Prop :=
  (∃ n : Int, v = Value.int n) ∨ (∃ q : ℚ, v = Value.num q)

/-- The per-field requirement of the beat_position namespace, stated from
the specification: position and measure are integers at least 1, num_beats
is a positive integer, beat_units is an integer among 1, 2, 4, 8, 16, 32
and 64. -/
def BeatPosFieldOK (name : String) (v : Value) : Prop :=
  (name = "position" → ∃ n : Int, v = Value.int n ∧ 1 ≤ n) ∧
  (name = "measure" → ∃ n : Int, v = Value.int n ∧ 1 ≤ n) ∧
  (name = "num_beats" → ∃ n : Int, v = Value.int n ∧ 0 < n) ∧
  (name = "beat_units" → ∃ n : Int, v = Value.int n ∧
    (n = 1 ∨ n = 2 ∨ n = 4 ∨ n = 8 ∨ n = 16 ∨ n = 32 ∨ n = 64))

/-- A valid beat_position value, stated from the specification: an object
exposing exactly the fields position, measure, num_beats and beat_units,
each satisfying its own predicate. -/
def IsBeatPositionValue (v : Value) : Prop :=
  ∃ kvs : List (String × Value), v = Value.obj kvs ∧
    (kvs.map Prod.fst).Perm ["position", "measure", "num_beats", "beat_units"] ∧
    ∀ p ∈ kvs, BeatPosFieldOK p.1 p.2

/-- A valid mood_thayer value, stated from the specification: a sequence of
exactly two real numbers. -/
def IsMoodThayerValue (v : Value) : Prop :=
  ∃ x y : Value, v = Value.arr [x, y] ∧ IsRealNumber x ∧ IsRealNumber y

/-- A valid tempo value, stated from the specification: a number at least
zero. -/
def IsTempoValue (v : Value) : Prop :=
  (∃ n : Int, v = Value.int n ∧ 0 ≤ (n : ℚ)) ∨ (∃ q : ℚ, v = Value.num q ∧ 0 ≤ q)

/-- A valid unit-interval-or-null confidence, stated from the
specification: null, or a number between 0 and 1. -/
def IsUnitConf (c : Value) : Prop :=
  c = Value.null ∨
  (∃ n : Int, c = Value.int n ∧ 0 ≤ (n : ℚ) ∧ (n : ℚ) ≤ 1) ∨
  (∃ q : ℚ, c = Value.num q ∧ 0 ≤ q ∧ q ≤ 1)

/-- The object keys of a value are free of duplicates (vacuously true for
non-objects); objects model Python dictionaries, whose keys are unique. -/
def ObjKeysNodup : Value → Prop
  | Value.obj kvs => (kvs.map Prod.fst).Nodup
  | _ => True

instance : (v : Value) → Decidable (ObjKeysNodup v)
  | Value.null => inferInstanceAs (Decidable True)
  | Value.int _ => inferInstanceAs (Decidable True)
  | Value.num _ => inferInstanceAs (Decidable True)
  | Value.str _ => inferInstanceAs (Decidable True)
  | Value.arr _ => inferInstanceAs (Decidable True)
  | Value.obj kvs => inferInstanceAs (Decidable (kvs.map Prod.fst).Nodup)

/-!
General lemmas about the validation pass.
-/

theorem obsViolations_eq_nil (s : NamespaceSchema) (i : Nat) (l : List Obs) :
    obsViolations s i l = [] ↔ ∀ o ∈ l, checkObs s o = [] := by
  induction l generalizing i with
  | nil => simp [obsViolations]
  | cons o rest ih =>
      simp [obsViolations, List.append_eq_nil, List.map_eq_nil_iff, ih]

theorem checkObs_eq_nil (s : NamespaceSchema) (o : Obs) :
    checkObs s o = [] ↔
      0 ≤ o.time ∧ 0 ≤ o.duration ∧
      checkValue s.value_rule o.value = [] ∧
      checkConf s.confidence_rule o.confidence = [] := by
  constructor
  · intro h
    unfold checkObs at h
    rcases List.append_eq_nil.mp h with ⟨h123, h4⟩
    rcases List.append_eq_nil.mp h123 with ⟨h12, h3⟩
    rcases List.append_eq_nil.mp h12 with ⟨h1, h2⟩
    refine ⟨?_, ?_, ?_, ?_⟩
    · by_contra hlt
      rw [if_pos (not_le.mp hlt)] at h1
      exact List.cons_ne_nil _ _ h1
    · by_contra hlt
      rw [if_pos (not_le.mp hlt)] at h2
      exact List.cons_ne_nil _ _ h2
    · exact List.map_eq_nil_iff.mp h3
    · exact List.map_eq_nil_iff.mp h4
  · rintro ⟨ht, hd, hv, hc⟩
    unfold checkObs
    rw [if_neg (not_lt.mpr ht), if_neg (not_lt.mpr hd), hv, hc]
    simp

theorem validate_ok_iff (reg : List (String × NamespaceSchema)) (a : Annot)
    (s : NamespaceSchema) (h : lookupNS reg a.nspace = Except.ok s) :
    (validate reg a = Except.ok () ↔ ∀ o ∈ a.observations, checkObs s o = []) := by
  rw [← obsViolations_eq_nil s 0]
  unfold validate
  rw [h]
  cases hv : obsViolations s 0 a.observations with
  | nil => simp [hv]
  | cons v vs => simp [hv]

theorem validate_err_of_bad (reg : List (String × NamespaceSchema)) (a : Annot)
    (s : NamespaceSchema) (h : lookupNS reg a.nspace = Except.ok s)
    (hbad : obsViolations s 0 a.observations ≠ []) :
    validate reg a =
      Except.error (ValidationError.schemaError (obsViolations s 0 a.observations)) := by
  unfold validate
  rw [h]
  cases hv : obsViolations s 0 a.observations with
  | nil => exact absurd hv hbad
  | cons v vs => simp [hv]

theorem validate_ok_or_schemaError (reg : List (String × NamespaceSchema)) (a : Annot)
    (s : NamespaceSchema) (h : lookupNS reg a.nspace = Except.ok s) :
    validate reg a = Except.ok () ∨
      ∃ vs, vs ≠ [] ∧ validate reg a = Except.error (ValidationError.schemaError vs) := by
  cases hv : obsViolations s 0 a.observations with
  | nil =>
      left
      rw [validate_ok_iff reg a s h, ← obsViolations_eq_nil s 0]
      exact hv
  | cons v rest =>
      right
      refine ⟨v :: rest, by simp, ?_⟩
      rw [← hv]
      exact validate_err_of_bad reg a s h (by rw [hv]; simp)

theorem obsViolations_idx_bounds (s : NamespaceSchema) (l : List Obs) (i : Nat) :
    ∀ w ∈ obsViolations s i l, i ≤ w.idx ∧ w.idx < i + l.length := by
  induction l generalizing i with
  | nil => simp [obsViolations]
  | cons o rest ih =>
      intro w hw
      rcases List.mem_append.mp hw with hw | hw
      · rcases List.mem_map.mp hw with ⟨fr, _, rfl⟩
        simp
      · rcases ih (i + 1) w hw with ⟨h1, h2⟩
        constructor
        · omega
        · simpa [Nat.add_assoc, Nat.add_comm 1 rest.length] using h2

theorem obsViolations_sorted (s : NamespaceSchema) (l : List Obs) (i : Nat) :
    (obsViolations s i l).Pairwise (fun u w => u.idx ≤ w.idx) := by
  induction l generalizing i with
  | nil => simp [obsViolations]
  | cons o rest ih =>
      rw [obsViolations, List.pairwise_append]
      refine ⟨?_, ih (i + 1), ?_⟩
      · apply List.pairwise_of_forall_mem_list
        intro u hu w hw
        rcases List.mem_map.mp hu with ⟨fr, _, rfl⟩
        rcases List.mem_map.mp hw with ⟨fr2, _, rfl⟩
        exact le_refl i
      · intro u hu w hw
        rcases List.mem_map.mp hu with ⟨fr, _, rfl⟩
        have := (obsViolations_idx_bounds s rest (i + 1) w hw).1
        simp only []
        omega

theorem obsViolations_complete (s : NamespaceSchema) (l : List Obs) (i : Nat) :
    ∀ j, (hj : j < l.length) → checkObs s (l.get ⟨j, hj⟩) ≠ [] →
    ∃ w ∈ obsViolations s i l, w.idx = i + j := by
  induction l generalizing i with
  | nil => intro j hj; simp at hj
  | cons o rest ih =>
      intro j hj hbad
      cases j with
      | zero =>
          cases hcheck : checkObs s o with
          | nil => exact absurd hcheck hbad
          | cons fr rest2 =>
              refine ⟨⟨i, fr.1, fr.2⟩, ?_, by simp⟩
              rw [obsViolations, hcheck]
              exact List.mem_append.mpr (Or.inl (List.mem_map.mpr ⟨fr, List.mem_cons_self _ _, rfl⟩))
      | succ j' =>
          have hj' : j' < rest.length := Nat.lt_of_succ_lt_succ hj
          rcases ih (i + 1) j' hj' hbad with ⟨w, hw, hidx⟩
          refine ⟨w, ?_, by omega⟩
          rw [obsViolations]
          exact List.mem_append.mpr (Or.inr hw)

/-!
Claim theorems.
-/

/-- Claim C3: on an annotation with at least one violating observation,
validate raises a single schema error carrying the ordered violation list of
the full pass: the observation indices are listed in append order, and every
violating observation index appears, so the pass does not stop at the first
failure. -/
theorem full_violation_report (a : Annot) (s : NamespaceSchema)
    (h : lookupNS builtinRegistry a.nspace = Except.ok s)
    (hbad : ∃ o ∈ a.observations, checkObs s o ≠ []) :
    validate builtinRegistry a =
      Except.error (ValidationError.schemaError (obsViolations s 0 a.observations)) ∧
    (obsViolations s 0 a.observations).Pairwise (fun u w => u.idx ≤ w.idx) ∧
    ∀ j, (hj : j < a.observations.length) →
      checkObs s (a.observations.get ⟨j, hj⟩) ≠ [] →
      ∃ w ∈ obsViolations s 0 a.observations, w.idx = j := by
  refine ⟨?_, obsViolations_sorted s a.observations 0, ?_⟩
  · apply validate_err_of_bad builtinRegistry a s h
    rw [Ne, obsViolations_eq_nil]
    rcases hbad with ⟨o, ho, hobs⟩
    intro hall
    exact hobs (hall o ho)
  · intro j hj hc
    simpa using obsViolations_complete s a.observations 0 j hj hc

def onsetBad2Ann : Annot :=
  ⟨"onset", [⟨-1, 0, Value.null, Value.null⟩, ⟨1, -1, Value.null, Value.null⟩]⟩

theorem full_violation_report_witness :
    (∃ o ∈ onsetBad2Ann.observations,
        checkObs ⟨ValueRule.anything, ConfRule.anything⟩ o ≠ []) ∧
    validate builtinRegistry onsetBad2Ann =
      Except.error (ValidationError.schemaError
        (obsViolations ⟨ValueRule.anything, ConfRule.anything⟩ 0
          onsetBad2Ann.observations)) :=
  ⟨⟨⟨-1, 0, Value.null, Value.null⟩, List.mem_cons_self _ _, by decide⟩,
    (full_violation_report onsetBad2Ann ⟨ValueRule.anything, ConfRule.anything⟩ rfl
      ⟨⟨-1, 0, Value.null, Value.null⟩, List.mem_cons_self _ _, by decide⟩).1⟩

theorem checkValue_anyNum_eq_nil (v : Value) :
    checkValue ValueRule.anyNum v = [] ↔ IsRealNumber v := by
  cases v <;> simp [checkValue, asNum, IsRealNumber]

theorem checkValue_numGE_eq_nil (v : Value) :
    checkValue (ValueRule.numGE 0) v = [] ↔ IsTempoValue v := by
  cases v with
  | int n =>
      by_cases hle : (0 : ℚ) ≤ (n : ℚ)
      · simp [checkValue, asNum, hle, IsTempoValue]
        exact_mod_cast hle
      · simp [checkValue, asNum, hle, IsTempoValue]
        exact_mod_cast not_le.mp hle
  | num q =>
      by_cases hle : (0 : ℚ) ≤ q
      · simp [checkValue, asNum, hle, IsTempoValue]
      · simp [checkValue, asNum, hle, IsTempoValue]
  | null => simp [checkValue, asNum, IsTempoValue]
  | str s => simp [checkValue, asNum, IsTempoValue]
  | arr xs => simp [checkValue, asNum, IsTempoValue]
  | obj kvs => simp [checkValue, asNum, IsTempoValue]

theorem checkConf_unitOrNull_eq_nil (c : Value) :
    checkConf ConfRule.unitOrNull c = [] ↔ IsUnitConf c := by
  cases c with
  | int n =>
      by_cases hc : (0 : ℚ) ≤ (n : ℚ) ∧ (n : ℚ) ≤ 1
      · simp [checkConf, asNum, hc, IsUnitConf]
        exact_mod_cast hc.1
      · simp only [checkConf, asNum, if_neg hc, IsUnitConf]
        simp only [reduceCtorEq, false_or]
        constructor
        · intro h
          exact absurd h (by simp)
        · rintro (⟨n2, hn2, h0, h1⟩ | ⟨q, hq, h0, h1⟩)
          · cases hn2
            exact absurd ⟨h0, h1⟩ hc
          · cases hq
  | num q =>
      by_cases hc : (0 : ℚ) ≤ q ∧ q ≤ 1
      · simp [checkConf, asNum, hc, IsUnitConf]
      · simp only [checkConf, asNum, if_neg hc, IsUnitConf]
        simp only [reduceCtorEq, false_or]
        constructor
        · intro h
          exact absurd h (by simp)
        · rintro (⟨n2, hn2, h0, h1⟩ | ⟨q2, hq2, h0, h1⟩)
          · cases hn2
          · cases hq2
            exact absurd ⟨h0, h1⟩ hc
  | null => simp [checkConf, IsUnitConf]
  | str s => simp [checkConf, asNum, IsUnitConf]
  | arr xs => simp [checkConf, asNum, IsUnitConf]
  | obj kvs => simp [checkConf, asNum, IsUnitConf]

/-- The 21-observation pitch_hz annotation of the specification: times 0 to
20, zero durations, values linearly spaced from -22050 to 22050 (so the
middle one is 0), confidences linearly spaced from 0 to 1, the middle
confidence replaced by null. -/
def pitchObs (i : Nat) : Obs :=
  { time := (i : ℚ), duration := 0,
    value := Value.num (-22050 + 2205 * (i : ℚ)),
    confidence := if i = 10 then Value.null else Value.num ((i : ℚ) / 20) }

def pitchAnn : Annot := ⟨"pitch_hz", (List.range 21).map pitchObs⟩

/-- Claim C4: for the pitch_hz namespace every real number is a valid value
and the confidence may be any number in the unit interval or null; in
particular the 21-observation annotation with values linearly spaced from
-22050 to 22050 and confidences linearly spaced from 0 to 1, one of them
null, validates with no error. -/
theorem pitch_hz_validation (q c : ℚ) (hc0 : 0 ≤ c) (hc1 : c ≤ 1) :
    checkValue ValueRule.anyNum (Value.num q) = [] ∧
    checkConf ConfRule.unitOrNull (Value.num c) = [] ∧
    checkConf ConfRule.unitOrNull Value.null = [] ∧
    validate builtinRegistry pitchAnn = Except.ok () := by
  refine ⟨rfl, ?_, rfl, ?_⟩
  · simp [checkConf, asNum, hc0, hc1]
  · rw [validate_ok_iff builtinRegistry pitchAnn ⟨ValueRule.anyNum, ConfRule.unitOrNull⟩ rfl]
    intro o ho
    rcases List.mem_map.mp ho with ⟨i, hi, rfl⟩
    have hi21 : i < 21 := List.mem_range.mp hi
    rw [checkObs_eq_nil]
    refine ⟨by simp [pitchObs], by simp [pitchObs], rfl, ?_⟩
    by_cases h10 : i = 10
    · simp [pitchObs, h10, checkConf]
    · simp only [pitchObs, if_neg h10]
      simp [checkConf, asNum]
      constructor
      · positivity
      · rw [div_le_one (by norm_num)]
        exact_mod_cast Nat.lt_succ_iff.mp hi21

theorem pitch_hz_validation_witness :
    (0 : ℚ) ≤ 1 / 2 ∧ (1 : ℚ) / 2 ≤ 1 ∧
    validate builtinRegistry pitchAnn = Except.ok () :=
  ⟨by norm_num, by norm_num,
    (pitch_hz_validation 0 (1 / 2) (by norm_num) (by norm_num)).2.2.2⟩

/-- The single-observation tempo annotation of the specification, with
value 1 and confidence 0.85. -/
def tempoAnn : Annot := ⟨"tempo", [⟨0, 0, Value.int 1, Value.num (17 / 20)⟩]⟩

/-- Claim C6: for the tempo namespace with valid time and duration,
validation succeeds exactly when every value is a number at least zero and
every confidence is null or a number in the unit interval; a failing
annotation fails with a schema error, and the concrete observation with
value 1 and confidence 0.85 passes. -/
theorem tempo_validate_iff (a : Annot) (h1 : a.nspace = "tempo")
    (h2 : ∀ o ∈ a.observations, 0 ≤ o.time ∧ 0 ≤ o.duration) :
    (validate builtinRegistry a = Except.ok () ↔
      ∀ o ∈ a.observations, IsTempoValue o.value ∧ IsUnitConf o.confidence) ∧
    (validate builtinRegistry a = Except.ok () ∨
      ∃ vs, vs ≠ [] ∧ validate builtinRegistry a =
        Except.error (ValidationError.schemaError vs)) ∧
    validate builtinRegistry tempoAnn = Except.ok () := by
  have hs : lookupNS builtinRegistry a.nspace =
      Except.ok ⟨ValueRule.numGE 0, ConfRule.unitOrNull⟩ := by
    rw [h1]
    rfl
  refine ⟨?_, validate_ok_or_schemaError builtinRegistry a _ hs, ?_⟩
  · rw [validate_ok_iff builtinRegistry a _ hs]
    constructor
    · intro hall o ho
      have h := (checkObs_eq_nil _ o).mp (hall o ho)
      exact ⟨(checkValue_numGE_eq_nil o.value).mp h.2.2.1,
        (checkConf_unitOrNull_eq_nil o.confidence).mp h.2.2.2⟩
    · intro hall o ho
      rw [checkObs_eq_nil]
      exact ⟨(h2 o ho).1, (h2 o ho).2,
        (checkValue_numGE_eq_nil o.value).mpr (hall o ho).1,
        (checkConf_unitOrNull_eq_nil o.confidence).mpr (hall o ho).2⟩
  · rw [validate_ok_iff builtinRegistry tempoAnn ⟨ValueRule.numGE 0, ConfRule.unitOrNull⟩ rfl]
    intro o ho
    cases List.mem_singleton.mp ho
    rw [checkObs_eq_nil]
    refine ⟨le_refl 0, le_refl 0, ?_, ?_⟩
    · exact (checkValue_numGE_eq_nil _).mpr (Or.inl ⟨1, rfl, by norm_num⟩)
    · exact (checkConf_unitOrNull_eq_nil _).mpr
        (Or.inr (Or.inr ⟨17 / 20, rfl, by norm_num, by norm_num⟩))

theorem tempo_validate_iff_witness :
    tempoAnn.nspace = "tempo" ∧
    (∀ o ∈ tempoAnn.observations, 0 ≤ o.time ∧ 0 ≤ o.duration) ∧
    validate builtinRegistry tempoAnn = Except.ok () :=
  ⟨rfl, by decide, (tempo_validate_iff tempoAnn rfl (by decide)).2.2⟩

theorem isNumber_iff (v : Value) : isNumber v = true ↔ IsRealNumber v := by
  cases v <;> simp [isNumber, IsRealNumber]

theorem flatMap_violation_length (xs : List Value) :
    (xs.flatMap
      (fun x => if isNumber x then [] else ["array element is not a number"])).length =
      xs.countP (fun x => ! isNumber x) := by
  induction xs with
  | nil => rfl
  | cons x rest ih =>
      cases hx : isNumber x <;>
        simp [hx, List.countP_cons, ih]

theorem checkValue_arrNum2_eq_nil (v : Value) :
    checkValue (ValueRule.arrNum 2) v = [] ↔ IsMoodThayerValue v := by
  cases v with
  | arr xs =>
      constructor
      · intro h
        rcases List.append_eq_nil.mp h with ⟨h1, h2⟩
        have hlen : xs.length = 2 := by
          by_contra hl
          rw [if_neg hl] at h1
          exact List.cons_ne_nil _ _ h1
        have hnum : ∀ x ∈ xs, isNumber x = true := by
          intro x hx
          by_contra hb
          have hthis := List.flatMap_eq_nil_iff.mp h2 x hx
          rw [if_neg hb] at hthis
          exact List.cons_ne_nil _ _ hthis
        rcases List.length_eq_two.mp hlen with ⟨x, y, rfl⟩
        exact ⟨x, y, rfl,
          (isNumber_iff x).mp (hnum x (by simp)),
          (isNumber_iff y).mp (hnum y (by simp))⟩
      · rintro ⟨x, y, heq, hx, hy⟩
        cases heq
        simp [checkValue, (isNumber_iff x).mpr hx, (isNumber_iff y).mpr hy]
  | null => simp [checkValue, IsMoodThayerValue]
  | int n => simp [checkValue, IsMoodThayerValue]
  | num q => simp [checkValue, IsMoodThayerValue]
  | str s => simp [checkValue, IsMoodThayerValue]
  | obj kvs => simp [checkValue, IsMoodThayerValue]

/-- The single-observation mood_thayer annotation of the specification,
with value [0.3, 2.0]. -/
def mtAnn : Annot :=
  ⟨"mood_thayer", [⟨0, 1, Value.arr [Value.num (3 / 10), Value.num 2], Value.null⟩]⟩

/-- Claim C5: for the mood_thayer namespace with valid time and duration,
validation succeeds exactly when every value is a sequence of exactly two
real numbers; a failing annotation fails with a schema error; the pair 0.3,
2.0 passes; a wrong-length array counts as one violation, each non-numeric
element as one more, and null and a scalar are rejected. -/
theorem mood_thayer_validate_iff (a : Annot) (h1 : a.nspace = "mood_thayer")
    (h2 : ∀ o ∈ a.observations, 0 ≤ o.time ∧ 0 ≤ o.duration) :
    (validate builtinRegistry a = Except.ok () ↔
      ∀ o ∈ a.observations, IsMoodThayerValue o.value) ∧
    (validate builtinRegistry a = Except.ok () ∨
      ∃ vs, vs ≠ [] ∧ validate builtinRegistry a =
        Except.error (ValidationError.schemaError vs)) ∧
    IsMoodThayerValue (Value.arr [Value.num (3 / 10), Value.num 2]) ∧
    (∀ xs : List Value,
      (checkValue (ValueRule.arrNum 2) (Value.arr xs)).length =
        (if xs.length = 2 then 0 else 1) + xs.countP (fun x => ! isNumber x)) ∧
    (checkValue (ValueRule.arrNum 2) (Value.arr [Value.int 0])).length = 1 ∧
    (checkValue (ValueRule.arrNum 2)
      (Value.arr [Value.int 0, Value.int 1, Value.int 2])).length = 1 ∧
    (checkValue (ValueRule.arrNum 2)
      (Value.arr [Value.str "a", Value.str "b"])).length = 2 ∧
    checkValue (ValueRule.arrNum 2) Value.null ≠ [] ∧
    checkValue (ValueRule.arrNum 2) (Value.int 0) ≠ [] := by
  have hs : lookupNS builtinRegistry a.nspace =
      Except.ok ⟨ValueRule.arrNum 2, ConfRule.anything⟩ := by
    rw [h1]
    rfl
  refine ⟨?_, validate_ok_or_schemaError builtinRegistry a _ hs,
    ⟨Value.num (3 / 10), Value.num 2, rfl, Or.inr ⟨3 / 10, rfl⟩, Or.inr ⟨2, rfl⟩⟩,
    ?_, by decide, by decide, by decide, by decide, by decide⟩
  · rw [validate_ok_iff builtinRegistry a _ hs]
    constructor
    · intro hall o ho
      have h := (checkObs_eq_nil _ o).mp (hall o ho)
      exact (checkValue_arrNum2_eq_nil o.value).mp h.2.2.1
    · intro hall o ho
      rw [checkObs_eq_nil]
      exact ⟨(h2 o ho).1, (h2 o ho).2,
        (checkValue_arrNum2_eq_nil o.value).mpr (hall o ho), rfl⟩
  · intro xs
    rw [checkValue, List.length_append, flatMap_violation_length]
    by_cases hl : xs.length = 2
    · rw [if_pos hl, if_pos hl]
      rfl
    · rw [if_neg hl, if_neg hl]
      rfl

theorem mood_thayer_validate_iff_witness :
    mtAnn.nspace = "mood_thayer" ∧
    (∀ o ∈ mtAnn.observations, 0 ≤ o.time ∧ 0 ≤ o.duration) ∧
    (validate builtinRegistry mtAnn = Except.ok () ↔
      ∀ o ∈ mtAnn.observations, IsMoodThayerValue o.value) :=
  ⟨rfl, by decide, (mood_thayer_validate_iff mtAnn rfl (by decide)).1⟩

/-- Claim C7: Annot.append performs no validation and always succeeds; its
only effect is that the new Observation is placed at the end of the
observation sequence, the namespace being untouched; all checking is
deferred to validate. -/
theorem append_no_validation (a : Annot) (t d : ℚ) (v c : Value) :
    (Annot.append a t d v c).observations = a.observations ++ [⟨t, d, v, c⟩] ∧
    (Annot.append a t d v c).nspace = a.nspace :=
  ⟨rfl, rfl⟩

/-- Claim C9: validation is idempotent and pure: running it leaves the
annotation unchanged, and running it again on the unmodified annotation
yields the same outcome. -/
theorem validate_idempotent_pure (reg : List (String × NamespaceSchema)) (a : Annot) :
    (validateRun reg a).2 = a ∧
    (validateRun reg (validateRun reg a).2).1 = (validateRun reg a).1 :=
  ⟨rfl, rfl⟩

/-- Claim C8: when the namespace name of an annotation is not registered,
lookup and validate both fail with a configuration error, never with a
schema error, and validation never silently succeeds. -/
theorem unknown_namespace_configError (a : Annot)
    (h : ∀ p ∈ builtinRegistry, p.1 ≠ a.nspace) :
    (lookupNS builtinRegistry a.nspace =
        Except.error (ValidationError.configError ("unknown namespace " ++ a.nspace)) ∧
      validate builtinRegistry a =
        Except.error (ValidationError.configError ("unknown namespace " ++ a.nspace))) ∧
    (∀ vs, validate builtinRegistry a ≠ Except.error (ValidationError.schemaError vs)) ∧
    validate builtinRegistry a ≠ Except.ok () := by
  have hfind : builtinRegistry.find? (fun p => p.1 == a.nspace) = none :=
    List.find?_eq_none.mpr (fun p hp => by simp [h p hp])
  have hlook : lookupNS builtinRegistry a.nspace =
      Except.error (ValidationError.configError ("unknown namespace " ++ a.nspace)) := by
    unfold lookupNS
    rw [hfind]
  have hval : validate builtinRegistry a =
      Except.error (ValidationError.configError ("unknown namespace " ++ a.nspace)) := by
    unfold validate
    rw [hlook]
  exact ⟨⟨hlook, hval⟩, fun vs => by rw [hval]; simp, by rw [hval]; simp⟩

def bogusAnn : Annot := ⟨"bogus", []⟩

theorem unknown_namespace_configError_witness :
    (∀ p ∈ builtinRegistry, p.1 ≠ bogusAnn.nspace) ∧
    validate builtinRegistry bogusAnn ≠ Except.ok () :=
  ⟨by decide, (unknown_namespace_configError bogusAnn (by decide)).2.2⟩

/-- Claim C1: for every annotation whose namespace resolves, an observation
with negative time or negative duration makes validation fail with a schema
error, and when every observation has nonnegative time and duration and
satisfies the value and confidence rules of the namespace, validation
succeeds. -/
theorem time_duration_validation (a : Annot) (s : NamespaceSchema)
    (h : lookupNS builtinRegistry a.nspace = Except.ok s) :
    ((∃ o ∈ a.observations, o.time < 0 ∨ o.duration < 0) →
        ∃ vs, vs ≠ [] ∧ validate builtinRegistry a =
          Except.error (ValidationError.schemaError vs)) ∧
    ((∀ o ∈ a.observations, 0 ≤ o.time ∧ 0 ≤ o.duration ∧
          checkValue s.value_rule o.value = [] ∧
          checkConf s.confidence_rule o.confidence = []) →
        validate builtinRegistry a = Except.ok ()) := by
  constructor
  · rintro ⟨o, ho, hbad⟩
    have hobs : checkObs s o ≠ [] := by
      rw [Ne, checkObs_eq_nil]
      rintro ⟨ht, hd, -, -⟩
      rcases hbad with hb | hb
      · exact absurd hb (not_lt.mpr ht)
      · exact absurd hb (not_lt.mpr hd)
    have hnil : obsViolations s 0 a.observations ≠ [] := by
      rw [Ne, obsViolations_eq_nil]
      intro hall
      exact hobs (hall o ho)
    exact ⟨_, hnil, validate_err_of_bad builtinRegistry a s h hnil⟩
  · intro hall
    rw [validate_ok_iff builtinRegistry a s h]
    intro o ho
    rw [checkObs_eq_nil]
    exact hall o ho

def onsetBadAnn : Annot := ⟨"onset", [⟨-1, 0, Value.null, Value.null⟩]⟩

theorem time_duration_validation_witness :
    lookupNS builtinRegistry onsetBadAnn.nspace =
      Except.ok ⟨ValueRule.anything, ConfRule.anything⟩ ∧
    (∃ vs, vs ≠ [] ∧ validate builtinRegistry onsetBadAnn =
      Except.error (ValidationError.schemaError vs)) :=
  ⟨rfl,
    (time_duration_validation onsetBadAnn ⟨ValueRule.anything, ConfRule.anything⟩ rfl).1
      ⟨⟨-1, 0, Value.null, Value.null⟩, List.mem_singleton.mpr rfl, Or.inl (by norm_num)⟩⟩

theorem keys_nodup_eq (kvs : List (String × Value))
    (hnd : (kvs.map Prod.fst).Nodup) (p q : String × Value)
    (hp : p ∈ kvs) (hq : q ∈ kvs) (h : p.1 = q.1) : p = q := by
  induction kvs with
  | nil => cases hp
  | cons a rest ih =>
      rw [List.map_cons, List.nodup_cons] at hnd
      rcases List.mem_cons.mp hp with hpe | hp2 <;> rcases List.mem_cons.mp hq with hqe | hq2
      · rw [hpe, hqe]
      · exfalso
        apply hnd.1
        rw [hpe] at h
        rw [h]
        exact List.mem_map.mpr ⟨q, hq2, rfl⟩
      · exfalso
        apply hnd.1
        rw [hqe] at h
        rw [← h]
        exact List.mem_map.mpr ⟨p, hp2, rfl⟩
      · exact ih hnd.2 hp2 hq2

theorem fieldOK_intGE (lo : Int) (v : Value) :
    fieldOK (FieldRule.intGE lo) v = true ↔ ∃ n : Int, v = Value.int n ∧ lo ≤ n := by
  cases v <;> simp [fieldOK]

theorem fieldOK_intGT (lo : Int) (v : Value) :
    fieldOK (FieldRule.intGT lo) v = true ↔ ∃ n : Int, v = Value.int n ∧ lo < n := by
  cases v <;> simp [fieldOK]

theorem fieldOK_intIn (v : Value) :
    fieldOK (FieldRule.intIn [1, 2, 4, 8, 16, 32, 64]) v = true ↔
      ∃ n : Int, v = Value.int n ∧
        (n = 1 ∨ n = 2 ∨ n = 4 ∨ n = 8 ∨ n = 16 ∨ n = 32 ∨ n = 64) := by
  cases v <;> simp [fieldOK]

theorem checkValue_obj_eq_nil (fields : List (String × FieldRule))
    (kvs : List (String × Value)) (hnd : (kvs.map Prod.fst).Nodup) :
    checkValue (ValueRule.objRule fields) (Value.obj kvs) = [] ↔
      ((∀ nf ∈ fields, ∃ p ∈ kvs, p.1 = nf.1 ∧ fieldOK nf.2 p.2 = true) ∧
        ∀ p ∈ kvs, ∃ nf ∈ fields, nf.1 = p.1) := by
  rw [checkValue, List.append_eq_nil, List.flatMap_eq_nil_iff, List.flatMap_eq_nil_iff]
  constructor
  · rintro ⟨hreq, hext⟩
    constructor
    · intro nf hnf
      have h := hreq nf hnf
      cases hf : kvs.find? (fun p => p.1 == nf.1) with
      | none =>
          rw [hf] at h
          exact absurd h (List.cons_ne_nil _ _)
      | some p =>
          rw [hf] at h
          have hm := List.mem_of_find?_eq_some hf
          have hk : p.1 = nf.1 := by
            have hbeq := List.find?_some hf
            simp only [beq_iff_eq] at hbeq
            exact hbeq
          have h2 : (if fieldOK nf.2 p.2 = true then []
              else ["invalid field " ++ nf.1]) = [] := h
          have hok : fieldOK nf.2 p.2 = true := by
            by_contra hb
            rw [if_neg hb] at h2
            exact absurd h2 (List.cons_ne_nil _ _)
          exact ⟨p, hm, hk, hok⟩
    · intro p hp
      have h := hext p hp
      by_cases ha : fields.any (fun nf => nf.1 == p.1) = true
      · rcases List.any_eq_true.mp ha with ⟨nf, hnf, hb⟩
        exact ⟨nf, hnf, eq_of_beq hb⟩
      · rw [if_neg ha] at h
        exact absurd h (List.cons_ne_nil _ _)
  · rintro ⟨hreq, hext⟩
    constructor
    · intro nf hnf
      rcases hreq nf hnf with ⟨p, hp, hk, hok⟩
      cases hf : kvs.find? (fun x => x.1 == nf.1) with
      | none =>
          exfalso
          apply List.find?_eq_none.mp hf p hp
          simp [hk]
      | some p2 =>
          have hm2 := List.mem_of_find?_eq_some hf
          have hk2 : p2.1 = nf.1 := by
            have hbeq2 := List.find?_some hf
            simp only [beq_iff_eq] at hbeq2
            exact hbeq2
          have hpp : p2 = p := keys_nodup_eq kvs hnd p2 p hm2 hp (hk2.trans hk.symm)
          show (if fieldOK nf.2 p2.2 = true then []
            else ["invalid field " ++ nf.1]) = []
          rw [hpp, if_pos hok]
    · intro p hp
      rcases hext p hp with ⟨nf, hnf, hk⟩
      have ha : fields.any (fun x => x.1 == p.1) = true :=
        List.any_eq_true.mpr ⟨nf, hnf, by simp [hk]⟩
      simp [ha]

theorem checkValue_beat_position_eq_nil (v : Value) (hnd : ObjKeysNodup v) :
    checkValue (ValueRule.objRule bpFields) v = [] ↔ IsBeatPositionValue v := by
  cases v with
  | obj kvs =>
      have hnd2 : (kvs.map Prod.fst).Nodup := hnd
      rw [checkValue_obj_eq_nil bpFields kvs hnd2]
      constructor
      · rintro ⟨hreq, hsub⟩
        refine ⟨kvs, rfl, ?_, ?_⟩
        · apply List.perm_of_nodup_nodup_toFinset_eq hnd2 (by decide)
          apply Finset.ext
          intro x
          rw [List.mem_toFinset, List.mem_toFinset]
          constructor
          · intro hx
            rcases List.mem_map.mp hx with ⟨p, hp, rfl⟩
            rcases hsub p hp with ⟨nf, hnf, hk⟩
            rw [← hk]
            simp only [bpFields, List.mem_cons, List.mem_singleton] at hnf
            rcases hnf with rfl | rfl | rfl | rfl | h
            · simp
            · simp
            · simp
            · simp
            · cases h
          · intro hx
            simp only [List.mem_cons, List.not_mem_nil, or_false] at hx
            rcases hx with rfl | rfl | rfl | rfl
            · rcases hreq ("position", FieldRule.intGE 1) (by simp [bpFields]) with
                ⟨p, hp, hk, -⟩
              exact List.mem_map.mpr ⟨p, hp, hk⟩
            · rcases hreq ("measure", FieldRule.intGE 1) (by simp [bpFields]) with
                ⟨p, hp, hk, -⟩
              exact List.mem_map.mpr ⟨p, hp, hk⟩
            · rcases hreq ("num_beats", FieldRule.intGT 0) (by simp [bpFields]) with
                ⟨p, hp, hk, -⟩
              exact List.mem_map.mpr ⟨p, hp, hk⟩
            · rcases hreq ("beat_units", FieldRule.intIn [1, 2, 4, 8, 16, 32, 64])
                (by simp [bpFields]) with ⟨p, hp, hk, -⟩
              exact List.mem_map.mpr ⟨p, hp, hk⟩
        · intro p hp
          refine ⟨?_, ?_, ?_, ?_⟩
          · intro hk
            rcases hreq ("position", FieldRule.intGE 1) (by simp [bpFields]) with
              ⟨p2, hp2, hk2, hok⟩
            have hpp : p = p2 := keys_nodup_eq kvs hnd2 p p2 hp hp2 (by rw [hk, hk2])
            rw [hpp]
            exact (fieldOK_intGE 1 p2.2).mp hok
          · intro hk
            rcases hreq ("measure", FieldRule.intGE 1) (by simp [bpFields]) with
              ⟨p2, hp2, hk2, hok⟩
            have hpp : p = p2 := keys_nodup_eq kvs hnd2 p p2 hp hp2 (by rw [hk, hk2])
            rw [hpp]
            exact (fieldOK_intGE 1 p2.2).mp hok
          · intro hk
            rcases hreq ("num_beats", FieldRule.intGT 0) (by simp [bpFields]) with
              ⟨p2, hp2, hk2, hok⟩
            have hpp : p = p2 := keys_nodup_eq kvs hnd2 p p2 hp hp2 (by rw [hk, hk2])
            rw [hpp]
            exact (fieldOK_intGT 0 p2.2).mp hok
          · intro hk
            rcases hreq ("beat_units", FieldRule.intIn [1, 2, 4, 8, 16, 32, 64])
              (by simp [bpFields]) with ⟨p2, hp2, hk2, hok⟩
            have hpp : p = p2 := keys_nodup_eq kvs hnd2 p p2 hp hp2 (by rw [hk, hk2])
            rw [hpp]
            exact (fieldOK_intIn p2.2).mp hok
      · rintro ⟨kvs2, heq, hperm, hfields⟩
        cases heq
        constructor
        · intro nf hnf
          simp only [bpFields, List.mem_cons, List.mem_singleton] at hnf
          rcases hnf with rfl | rfl | rfl | rfl | h
          · have hx : "position" ∈ kvs.map Prod.fst := hperm.mem_iff.mpr (by simp)
            rcases List.mem_map.mp hx with ⟨p, hp, hk⟩
            rcases (hfields p hp).1 hk with ⟨n, hval, hle⟩
            exact ⟨p, hp, hk, (fieldOK_intGE 1 p.2).mpr ⟨n, hval, hle⟩⟩
          · have hx : "measure" ∈ kvs.map Prod.fst := hperm.mem_iff.mpr (by simp)
            rcases List.mem_map.mp hx with ⟨p, hp, hk⟩
            rcases (hfields p hp).2.1 hk with ⟨n, hval, hle⟩
            exact ⟨p, hp, hk, (fieldOK_intGE 1 p.2).mpr ⟨n, hval, hle⟩⟩
          · have hx : "num_beats" ∈ kvs.map Prod.fst := hperm.mem_iff.mpr (by simp)
            rcases List.mem_map.mp hx with ⟨p, hp, hk⟩
            rcases (hfields p hp).2.2.1 hk with ⟨n, hval, hle⟩
            exact ⟨p, hp, hk, (fieldOK_intGT 0 p.2).mpr ⟨n, hval, hle⟩⟩
          · have hx : "beat_units" ∈ kvs.map Prod.fst := hperm.mem_iff.mpr (by simp)
            rcases List.mem_map.mp hx with ⟨p, hp, hk⟩
            rcases (hfields p hp).2.2.2 hk with ⟨n, hval, hmem⟩
            exact ⟨p, hp, hk, (fieldOK_intIn p.2).mpr ⟨n, hval, hmem⟩⟩
          · cases h
        · intro p hp
          have hx : p.1 ∈ kvs.map Prod.fst := List.mem_map.mpr ⟨p, hp, rfl⟩
          have h4 := hperm.mem_iff.mp hx
          simp only [List.mem_cons, List.not_mem_nil, or_false] at h4
          rcases h4 with h | h | h | h
          · exact ⟨("position", FieldRule.intGE 1), by simp [bpFields], h.symm⟩
          · exact ⟨("measure", FieldRule.intGE 1), by simp [bpFields], h.symm⟩
          · exact ⟨("num_beats", FieldRule.intGT 0), by simp [bpFields], h.symm⟩
          · exact ⟨("beat_units", FieldRule.intIn [1, 2, 4, 8, 16, 32, 64]),
              by simp [bpFields], h.symm⟩
  | null =>
      simp [checkValue, IsBeatPositionValue]
  | int n =>
      simp [checkValue, IsBeatPositionValue]
  | num q =>
      simp [checkValue, IsBeatPositionValue]
  | str s =>
      simp [checkValue, IsBeatPositionValue]
  | arr xs =>
      simp [checkValue, IsBeatPositionValue]

/-- The single-observation beat_position annotation of the specification,
with the passing object value. -/
def bpAnn : Annot :=
  ⟨"beat_position",
    [⟨0, 1,
      Value.obj [("position", Value.int 1), ("measure", Value.int 1),
        ("num_beats", Value.int 3), ("beat_units", Value.int 4)],
      Value.null⟩]⟩

/-- Claim C2: for the beat_position namespace with valid time and duration
(object values modelling Python dictionaries, so with duplicate-free keys),
validation succeeds exactly when every value is an object exposing exactly
the fields position, measure, num_beats and beat_units with their integer
range and membership predicates; a failing annotation fails with a schema
error; a non-object value (null included) is one single violation for the
whole value; and substituting 3 for beat_units makes the value invalid. -/
theorem beat_position_validate_iff (a : Annot) (h1 : a.nspace = "beat_position")
    (h2 : ∀ o ∈ a.observations, 0 ≤ o.time ∧ 0 ≤ o.duration)
    (h3 : ∀ o ∈ a.observations, ObjKeysNodup o.value) :
    (validate builtinRegistry a = Except.ok () ↔
      ∀ o ∈ a.observations, IsBeatPositionValue o.value) ∧
    (validate builtinRegistry a = Except.ok () ∨
      ∃ vs, vs ≠ [] ∧ validate builtinRegistry a =
        Except.error (ValidationError.schemaError vs)) ∧
    (∀ v : Value, (∀ kvs, v ≠ Value.obj kvs) →
      (checkValue (ValueRule.objRule bpFields) v).length = 1) ∧
    checkValue (ValueRule.objRule bpFields)
      (Value.obj [("position", Value.int 1), ("measure", Value.int 1),
        ("num_beats", Value.int 3), ("beat_units", Value.int 3)]) ≠ [] ∧
    checkValue (ValueRule.objRule bpFields) Value.null ≠ [] := by
  have hs : lookupNS builtinRegistry a.nspace =
      Except.ok ⟨ValueRule.objRule bpFields, ConfRule.anything⟩ := by
    rw [h1]
    rfl
  refine ⟨?_, validate_ok_or_schemaError builtinRegistry a _ hs, ?_, by decide, by decide⟩
  · rw [validate_ok_iff builtinRegistry a _ hs]
    constructor
    · intro hall o ho
      have h := (checkObs_eq_nil _ o).mp (hall o ho)
      exact (checkValue_beat_position_eq_nil o.value (h3 o ho)).mp h.2.2.1
    · intro hall o ho
      rw [checkObs_eq_nil]
      exact ⟨(h2 o ho).1, (h2 o ho).2,
        (checkValue_beat_position_eq_nil o.value (h3 o ho)).mpr (hall o ho), rfl⟩
  · intro v hv
    cases v with
    | obj kvs => exact absurd rfl (hv kvs)
    | null => rfl
    | int n => rfl
    | num q => rfl
    | str s => rfl
    | arr xs => rfl

theorem beat_position_validate_iff_witness :
    bpAnn.nspace = "beat_position" ∧
    (∀ o ∈ bpAnn.observations, 0 ≤ o.time ∧ 0 ≤ o.duration) ∧
    (∀ o ∈ bpAnn.observations, ObjKeysNodup o.value) ∧
    (validate builtinRegistry bpAnn = Except.ok () ↔
      ∀ o ∈ bpAnn.observations, IsBeatPositionValue o.value) :=
  ⟨rfl, by decide, by decide,
    (beat_position_validate_iff bpAnn rfl (by decide) (by decide)).1⟩

/-!
Lemmas for the unzip path computation.
-/

theorem posixSplit_tail_no_slash (p : String) : '/' ∉ ((posixSplit p).2).toList := by
  intro h
  have h2 : '/' ∈ (p.toList.reverse.takeWhile (fun c => c != '/')).reverse := h
  have h3 := List.mem_reverse.mp h2
  have h4 := List.mem_takeWhile_imp h3
  simp at h4

theorem foldl_stepWord_eq (ws : List String) (dest : String) :
    ws.foldl stepWord dest = (cleanWords ws).foldl posixJoin dest := by
  induction ws generalizing dest with
  | nil => rfl
  | cons w rest ih =>
      by_cases hc : (posixSplit (splitdrive w).2).2 = "." ∨
          (posixSplit (splitdrive w).2).2 = ".." ∨ (posixSplit (splitdrive w).2).2 = ""
      · have hstep : stepWord dest w = dest := by
          show (if (posixSplit (splitdrive w).2).2 = "." ∨
              (posixSplit (splitdrive w).2).2 = ".." ∨
              (posixSplit (splitdrive w).2).2 = "" then dest
            else posixJoin dest (posixSplit (splitdrive w).2).2) = dest
          rw [if_pos hc]
        have hclean : cleanWords (w :: rest) = cleanWords rest := by
          rw [cleanWords, List.filterMap_cons, if_pos hc]
          rfl
        rw [List.foldl_cons, hstep, hclean, ih]
      · have hstep : stepWord dest w = posixJoin dest (posixSplit (splitdrive w).2).2 := by
          show (if (posixSplit (splitdrive w).2).2 = "." ∨
              (posixSplit (splitdrive w).2).2 = ".." ∨
              (posixSplit (splitdrive w).2).2 = "" then dest
            else posixJoin dest (posixSplit (splitdrive w).2).2) =
            posixJoin dest (posixSplit (splitdrive w).2).2
          rw [if_neg hc]
        have hclean : cleanWords (w :: rest) =
            (posixSplit (splitdrive w).2).2 :: cleanWords rest := by
          rw [cleanWords, List.filterMap_cons, if_neg hc]
          rfl
        rw [List.foldl_cons, hstep, hclean, List.foldl_cons, ih]

theorem cleanWords_safe (ws : List String) :
    ∀ c ∈ cleanWords ws, c ≠ "" ∧ c ≠ "." ∧ c ≠ ".." ∧ '/' ∉ c.toList := by
  intro c hc
  rcases List.mem_filterMap.mp hc with ⟨w, _, hf⟩
  by_cases hcond : (posixSplit (splitdrive w).2).2 = "." ∨
      (posixSplit (splitdrive w).2).2 = ".." ∨ (posixSplit (splitdrive w).2).2 = ""
  · rw [if_pos hcond] at hf
    cases hf
  · rw [if_neg hcond] at hf
    have hcc : (posixSplit (splitdrive w).2).2 = c := Option.some.inj hf
    push_neg at hcond
    rw [← hcc]
    exact ⟨hcond.2.2, hcond.1, hcond.2.1, posixSplit_tail_no_slash _⟩

theorem posixJoin_extends (a b : String) (hb : '/' ∉ b.toList) :
    ∃ t, posixJoin a b = a ++ t := by
  unfold posixJoin
  have h1 : ¬ (b.toList.take 1 = ['/']) := by
    intro h
    apply hb
    cases hbl : b.toList with
    | nil => rw [hbl] at h; cases h
    | cons c t =>
        rw [hbl] at h
        have : c = '/' := by
          have := List.cons.inj h
          exact this.1
        rw [this]
        exact List.mem_cons_self _ _
  rw [if_neg h1]
  by_cases h2 : a = "" ∨ a.toList.getLast? = some '/'
  · rw [if_pos h2]
    exact ⟨b, rfl⟩
  · rw [if_neg h2]
    exact ⟨"/" ++ b, String.append_assoc a "/" b⟩

theorem foldl_posixJoin_extends (comps : List String) (dest : String)
    (h : ∀ c ∈ comps, '/' ∉ c.toList) :
    ∃ t, comps.foldl posixJoin dest = dest ++ t := by
  induction comps generalizing dest with
  | nil => exact ⟨"", (String.append_empty dest).symm⟩
  | cons c rest ih =>
      rcases posixJoin_extends dest c (h c (List.mem_cons_self _ _)) with ⟨t1, ht1⟩
      rcases ih (dest ++ t1) (fun x hx => h x (List.mem_cons_of_mem _ hx)) with ⟨t2, ht2⟩
      refine ⟨t1 ++ t2, ?_⟩
      rw [List.foldl_cons, ht1, ht2, String.append_assoc]

/-- Claim C10: the directory a zip member is extracted into by unzip is the
destination directory extended only by components of the member filename
that are not the current-directory name, the parent-directory name or
empty and that contain no slash; in particular it is the destination
directory itself or a path beneath it, so archive entry names cannot direct
extraction outside the destination directory. -/
theorem unzip_extract_dir_safe (dest filename : String) :
    ∃ comps : List String,
      memberExtractDir dest filename = comps.foldl posixJoin dest ∧
      (∀ c ∈ comps, c ≠ "" ∧ c ≠ "." ∧ c ≠ ".." ∧ '/' ∉ c.toList) ∧
      ∃ t : String, memberExtractDir dest filename = dest ++ t := by
  refine ⟨cleanWords ((filename.splitOn "/").dropLast),
    foldl_stepWord_eq _ _, cleanWords_safe _, ?_⟩
  rw [memberExtractDir, foldl_stepWord_eq]
  exact foldl_posixJoin_extends _ dest
    (fun c hc => (cleanWords_safe _ c hc).2.2.2)

theorem append_no_validation_witness :
    (Annot.append ⟨"onset", []⟩ 1 2 (Value.int 3) Value.null).observations =
      ([] : List Obs) ++ [⟨1, 2, Value.int 3, Value.null⟩] ∧
    (Annot.append ⟨"onset", []⟩ 1 2 (Value.int 3) Value.null).nspace = "onset" :=
  append_no_validation ⟨"onset", []⟩ 1 2 (Value.int 3) Value.null

theorem validate_idempotent_pure_witness :
    (validateRun builtinRegistry ⟨"onset", []⟩).2 = (⟨"onset", []⟩ : Annot) ∧
    (validateRun builtinRegistry (validateRun builtinRegistry ⟨"onset", []⟩).2).1 =
      (validateRun builtinRegistry ⟨"onset", []⟩).1 :=
  validate_idempotent_pure builtinRegistry ⟨"onset", []⟩

theorem unzip_extract_dir_safe_witness :
    ∃ comps : List String,
      memberExtractDir "dest" "a/../b/file.txt" = comps.foldl posixJoin "dest" ∧
      (∀ c ∈ comps, c ≠ "" ∧ c ≠ "." ∧ c ≠ ".." ∧ '/' ∉ c.toList) ∧
      ∃ t : String, memberExtractDir "dest" "a/../b/file.txt" = "dest" ++ t :=
  unzip_extract_dir_safe "dest" "a/../b/file.txt"
